import Mathlib

/-
Shallow embedding of the plugin/feature core of the chrome-extension template:
`src/core/feature-registry.ts` and `src/core/plugin-manager.ts`.

Modelling conventions:
* JavaScript `Map`s are insertion-ordered association lists `List (String × α)`;
  `Map.get` is `alookup`, `Map.set` is `aset` (replace in place, else append),
  `Map.delete` is `aerase`, in-place mutation of a stored object is `aupdate`.
  Iteration (`values()`, `entries()`, `Array.from`) follows list order, exactly
  as JS Maps iterate in insertion order.
* Thrown exceptions and rejected promises are `Except.error` with the message
  string; `await` of a resolved promise is the `Except.ok` payload.
* JS falsiness that the source relies on (`""`, `0`, `undefined` under `||` and
  `!`) is modelled explicitly at each use site.
* Host-environment values (the DOM `document`, `chrome` handles, the storage
  collaborator, `Date` timestamps, `console` logging) are omitted: they are
  opaque to every property considered here.
-/

/-- `Record<string, any>` settings objects, modelled as association lists. -/
abbrev Settings := List (String × String)

/-- `FeatureMapping` from `site-config.interface.ts`. -/
structure FeatureMapping where
  featureId : String
  implementation : Option String
  enabled : Bool
  settings : Option Settings
  priority : Option Int
deriving DecidableEq

/-- `UrlMatchRule` from `site-config.interface.ts` (`type` rendered as `matchType`,
`include` as `includeMatch`). -/
structure UrlMatchRule where
  pattern : String
  matchType : String
  includeMatch : Bool
deriving DecidableEq

/-- `SiteConfig` from `site-config.interface.ts` (timestamps omitted). -/
structure SiteConfig where
  id : String
  name : String
  urlRules : List UrlMatchRule
  enabledFeatures : List FeatureMapping
  settings : Option Settings
  priority : Option Int
  enabled : Option Bool
deriving DecidableEq

/-- `FeatureExecutionResult` from `feature.interface.ts`. -/
structure FeatureExecutionResult where
  success : Bool
  error : Option String
  actions : Option (List String)
deriving DecidableEq

/-- `FeatureExecutionContext` from `feature.interface.ts`; the host-object
fields `document` and `storage` are omitted. -/
structure FeatureExecutionContext where
  siteConfig : SiteConfig
  settings : Settings
  url : String

/-- `Feature` from `feature.interface.ts`. `implementationName` is `some _`
exactly when the `"implementationName" in feature` check of the source
succeeds (the `FeatureImplementation` subinterface). `isApplicable` and
`execute` may throw, hence `Except`. Optional members not used by the core
(`configure`, `getStatus`, ...) are omitted. -/
structure Feature where
  id : String
  name : String
  description : String
  version : String
  implementationName : Option String
  isApplicable : String → Option SiteConfig → Except String Bool
  execute : FeatureExecutionContext → Except String FeatureExecutionResult

/-- `FeatureRegistryEntry` from `feature-registry.ts` (`registeredAt : Date` omitted). -/
structure FeatureRegistryEntry where
  feature : Feature
  pluginId : Option String

/-- JS `Map.get`. -/
def alookup {α : Type} (k : String) : List (String × α) → Option α
  | [] => none
  | (a, b) :: t => if a = k then some b else alookup k t

/-- JS `Map.set`: replace the entry in place if the key exists, else append. -/
def aset {α : Type} (k : String) (v : α) : List (String × α) → List (String × α)
  | [] => [(k, v)]
  | (a, b) :: t => if a = k then (k, v) :: t else (a, b) :: aset k v t

/-- JS `Map.delete` (keys are unique, so at most one entry is removed). -/
def aerase {α : Type} (k : String) : List (String × α) → List (String × α)
  | [] => []
  | (a, b) :: t => if a = k then t else (a, b) :: aerase k t

/-- In-place mutation of the object stored under a key. -/
def aupdate {α : Type} (k : String) (f : α → α) : List (String × α) → List (String × α)
  | [] => []
  | (a, b) :: t => if a = k then (a, f b) :: t else (a, b) :: aupdate k f t

/-- The three maps of `FeatureRegistry` (`features`, `defaultImplementations`,
`aliases`). -/
structure FeatureRegistry where
  features : List (String × List (String × FeatureRegistryEntry))
  defaultImplementations : List (String × String)
  aliases : List (String × String)

/-- A freshly constructed `FeatureRegistry`. -/
def emptyRegistry : FeatureRegistry := ⟨[], [], []⟩

/-- `FeatureRegistry.getImplementationName`: the feature's own
`implementationName` when the field is present (even when it is `""`),
else `"default"`. -/
def getImplementationName (feature : Feature) : String :=
  match feature.implementationName with
  | some s => s
  | none => "default"

/-- `FeatureRegistry.registerFeature`. -/
def registerFeature (reg : FeatureRegistry) (feature : Feature)
    (pluginId : Option String) (isDefault : Bool) : FeatureRegistry :=
  let featureId := feature.id
  let implementationName := getImplementationName feature
  let implementations := (alookup featureId reg.features).getD []
  let implementations' := aset implementationName ⟨feature, pluginId⟩ implementations
  { features := aset featureId implementations' reg.features
    defaultImplementations :=
      if isDefault || (alookup featureId reg.defaultImplementations).isNone then
        aset featureId implementationName reg.defaultImplementations
      else
        reg.defaultImplementations
    aliases := reg.aliases }

/-- `FeatureRegistry.getFeature`. `aliases.get(featureId) || featureId` and
`implementationName || default` and `if (!implName)` follow JS falsiness:
an empty-string alias target or implementation name counts as absent. -/
def getFeature (reg : FeatureRegistry) (featureId : String)
    (implementationName : Option String) : Option Feature :=
  let resolvedFeatureId :=
    match alookup featureId reg.aliases with
    | some t => if t = "" then featureId else t
    | none => featureId
  match alookup resolvedFeatureId reg.features with
  | none => none
  | some implementations =>
    let implName : Option String :=
      match implementationName with
      | some s =>
        if s = "" then alookup resolvedFeatureId reg.defaultImplementations else some s
      | none => alookup resolvedFeatureId reg.defaultImplementations
    match implName with
    | none => none
    | some n =>
      if n = "" then none
      else (alookup n implementations).map (fun e => e.feature)

/-- `FeatureRegistry.unregisterFeature`; returns the JS boolean result together
with the registry after the mutation. `if (implementationName)` treats an
empty-string implementation name as falsy — the call then behaves as if the
argument were omitted (normalized below before branching); `if (pluginId && ...)`
and `if (pluginId)` likewise treat an empty-string plugin id as falsy. -/
def unregisterFeature (reg : FeatureRegistry) (featureId : String)
    (implementationName : Option String) (pluginId : Option String) :
    Bool × FeatureRegistry :=
  match alookup featureId reg.features with
  | none => (false, reg)
  | some implementations =>
    match (match implementationName with
           | some s => if s = "" then none else some s
           | none => none) with
    | some implName =>
      match alookup implName implementations with
      | none => (false, reg)
      | some entry =>
        let pidMismatch : Bool :=
          match pluginId with
          | some pid => decide (pid ≠ "") && decide (entry.pluginId ≠ some pid)
          | none => false
        if pidMismatch then (false, reg)
        else
          let implementations' := aerase implName implementations
          let defaults' :=
            if alookup featureId reg.defaultImplementations = some implName then
              match implementations'.map Prod.fst with
              | [] => aerase featureId reg.defaultImplementations
              | k :: _ => aset featureId k reg.defaultImplementations
            else reg.defaultImplementations
          let features' :=
            if implementations'.isEmpty then aerase featureId reg.features
            else aset featureId implementations' reg.features
          (true, ⟨features', defaults', reg.aliases⟩)
    | none =>
      match pluginId with
      | some pid =>
        if pid = "" then
          (true, ⟨aerase featureId reg.features,
                  aerase featureId reg.defaultImplementations, reg.aliases⟩)
        else
          let removed := implementations.any (fun p => p.2.pluginId == some pid)
          let implementations' :=
            implementations.filter (fun p => !(p.2.pluginId == some pid))
          if implementations'.isEmpty then
            (removed, ⟨aerase featureId reg.features,
                       aerase featureId reg.defaultImplementations, reg.aliases⟩)
          else
            (removed, ⟨aset featureId implementations' reg.features,
                       reg.defaultImplementations, reg.aliases⟩)
      | none =>
        (true, ⟨aerase featureId reg.features,
                aerase featureId reg.defaultImplementations, reg.aliases⟩)

/-- `FeatureRegistry.setAlias`: unconditional overwrite. -/
def setAlias (reg : FeatureRegistry) (aliasName featureId : String) : FeatureRegistry :=
  { reg with aliases := aset aliasName featureId reg.aliases }

/-- The record returned by `FeatureRegistry.getStats`. -/
structure RegistryStats where
  totalFeatures : Nat
  totalImplementations : Nat
  pluginBreakdown : List (String × Nat)
deriving DecidableEq

/-- `entry.pluginId || "unknown"` (empty string is falsy). -/
def breakdownKey (p : Option String) : String :=
  match p with
  | some s => if s = "" then "unknown" else s
  | none => "unknown"

/-- `FeatureRegistry.getStats`. -/
def getStats (reg : FeatureRegistry) : RegistryStats :=
  { totalFeatures := reg.features.length
    totalImplementations := (reg.features.map (fun pr => pr.2.length)).sum
    pluginBreakdown :=
      reg.features.foldl (fun acc pr =>
        pr.2.foldl (fun acc2 e =>
          match alookup (breakdownKey e.2.pluginId) acc2 with
          | some n => aset (breakdownKey e.2.pluginId) (n + 1) acc2
          | none => aset (breakdownKey e.2.pluginId) 1 acc2) acc) [] }

/-- The sort key `(m.priority || 999)` used by `getApplicableFeatures`:
JS `||` treats a priority of `0` (falsy) the same as a missing priority. -/
def sortKey (m : FeatureMapping) : Int :=
  match m.priority with
  | some p => if p = 0 then 999 else p
  | none => 999

/-- One insertion step of a stable sort: the new element goes after every
element whose key is less than or equal to its own. -/
def insertByKey {α : Type} (key : α → Int) (a : α) : List α → List α
  | [] => [a]
  | b :: l => if key a < key b then a :: b :: l else b :: insertByKey key a l

/-- Stable sort by an integer key, modelling `Array.prototype.sort` with the
comparator `(a, b) => key a - key b` (ES2019 guarantees stability). -/
def stableSortByKey {α : Type} (key : α → Int) (l : List α) : List α :=
  l.foldl (fun acc a => insertByKey key a acc) []

/-- The body of the `for` loop of `FeatureRegistry.getApplicableFeatures`:
`none` models `continue` (mapping disabled, feature unresolved, `isApplicable`
returned false or threw — the thrown exception is caught and logged),
`some f` models `applicableFeatures.push(feature)`. -/
def applicableStep (reg : FeatureRegistry) (sc : SiteConfig) (url : String)
    (m : FeatureMapping) : Option Feature :=
  if m.enabled then
    match getFeature reg m.featureId m.implementation with
    | none => none
    | some f =>
      match f.isApplicable url (some sc) with
      | Except.ok true => some f
      | Except.ok false => none
      | Except.error _ => none
  else none

/-- `FeatureRegistry.getApplicableFeatures`. -/
def getApplicableFeatures (reg : FeatureRegistry) (sc : SiteConfig) (url : String) :
    List Feature :=
  (stableSortByKey sortKey sc.enabledFeatures).filterMap (applicableStep reg sc url)

/-- The same loop keeping, for analysis, the mapping that produced each pushed
feature alongside it. -/
def applicablePairs (reg : FeatureRegistry) (sc : SiteConfig) (url : String) :
    List (FeatureMapping × Feature) :=
  (stableSortByKey sortKey sc.enabledFeatures).filterMap
    (fun m => (applicableStep reg sc url m).map (fun f => (m, f)))

/-- `PluginStatus` from `plugin.interface.ts`. -/
inductive PluginStatus where
  | unloaded
  | loading
  | loaded
  | active
  | inactive
  | error
deriving DecidableEq

/-- `Plugin` from `plugin.interface.ts`. The plugin's `initialize(context)`
method is modelled by its outcome `initResult` (the initialization context
only carries host handles and the manager self-reference); the optional
`activate()` method is modelled by `activateResult`, `none` when absent. `deactivate`/`dispose` and the optional
config accessors are not needed by any property here and are omitted. -/
structure Plugin where
  id : String
  name : String
  version : String
  description : String
  features : List Feature
  status : PluginStatus
  initResult : Except String Unit
  activateResult : Option (Except String Unit)

/-- The state of `PluginManager`: the loaded-plugin map, the feature registry
and the `isInitialized` flag (the storage collaborator and init context hold
only host handles and are omitted). -/
structure PluginManager where
  plugins : List (String × Plugin)
  registry : FeatureRegistry
  isInitialized : Bool

/-- `PluginManager.getFeaturePluginId`: linear search over the loaded plugins
for one whose feature list contains the feature's id. -/
def getFeaturePluginId (pm : PluginManager) (feature : Feature) : String :=
  match pm.plugins.find? (fun p => p.2.features.any (fun f => f.id == feature.id)) with
  | some p => p.1
  | none => "unknown"

/-- `PluginManager.getFeatureSettings`: the settings of the first mapping in
`siteConfig.enabledFeatures` whose `featureId` matches (`mapping?.settings || {}`;
a present settings object, even empty, is truthy). -/
def getFeatureSettings (sc : SiteConfig) (featureId : String) : Settings :=
  match sc.enabledFeatures.find? (fun m => m.featureId == featureId) with
  | some m => m.settings.getD []
  | none => []

/-- The execution context built by `executeApplicableFeatures` for a feature
(`document` and `storage` omitted). -/
def featureContext (sc : SiteConfig) (url : String) (f : Feature) :
    FeatureExecutionContext :=
  ⟨sc, getFeatureSettings sc f.id, url⟩

/-- `result.error || "Unknown error"` (empty string is falsy). -/
def errTextOf (e : Option String) : String :=
  match e with
  | some s => if s = "" then "Unknown error" else s
  | none => "Unknown error"

/-- An element of `PluginExecutionResult.executedFeatures`. -/
structure ExecutedFeature where
  featureId : String
  implementation : String
  result : FeatureExecutionResult
deriving DecidableEq

/-- `PluginExecutionResult` from `plugin-manager.ts`. -/
structure PluginExecutionResult where
  pluginId : String
  success : Bool
  executedFeatures : List ExecutedFeature
  errors : List String
deriving DecidableEq

/-- The `FeatureExecutionResult` recorded for a feature: the returned result
when `execute` resolves, a synthesized failure when it throws (`catch` block
of `executeApplicableFeatures`). -/
def mkExecResult : Except String FeatureExecutionResult → FeatureExecutionResult
  | Except.ok r => r
  | Except.error e => ⟨false, some ("Feature execution failed: " ++ e), none⟩

/-- The mutation of the owning plugin's aggregate record performed by the
`try`/`catch` body of `executeApplicableFeatures` for one feature. -/
def applyOutcome (f : Feature) (outcome : Except String FeatureExecutionResult)
    (pr : PluginExecutionResult) : PluginExecutionResult :=
  match outcome with
  | Except.ok result =>
    { pr with
      executedFeatures := pr.executedFeatures ++ [⟨f.id, getImplementationName f, result⟩]
      success := if result.success then pr.success else false
      errors := if result.success then pr.errors else pr.errors ++ [errTextOf result.error] }
  | Except.error e =>
    { pr with
      success := false
      errors := pr.errors ++ ["Feature execution failed: " ++ e]
      executedFeatures :=
        pr.executedFeatures ++
          [⟨f.id, getImplementationName f,
            ⟨false, some ("Feature execution failed: " ++ e), none⟩⟩] }

/-- One iteration of the feature loop of `executeApplicableFeatures`: ensure
the per-plugin record exists (`pluginResults.set` on first encounter, hence
appended in first-encounter order), then mutate it in place. -/
def stepFeature (pm : PluginManager) (sc : SiteConfig) (url : String)
    (acc : List (String × PluginExecutionResult)) (f : Feature) :
    List (String × PluginExecutionResult) :=
  let pid := getFeaturePluginId pm f
  let acc1 := if (alookup pid acc).isSome then acc else acc ++ [(pid, ⟨pid, true, [], []⟩)]
  aupdate pid (applyOutcome f (f.execute (featureContext sc url f))) acc1

/-- `PluginManager.executeApplicableFeatures`: throws when not initialized,
otherwise runs every applicable feature sequentially and returns
`Array.from(pluginResults.values())`. -/
def executeApplicableFeatures (pm : PluginManager) (sc : SiteConfig) (url : String) :
    Except String (List PluginExecutionResult) :=
  if pm.isInitialized then
    Except.ok
      (((getApplicableFeatures pm.registry sc url).foldl (stepFeature pm sc url) []).map
        Prod.snd)
  else Except.error "PluginManager not initialized"

/-- The features whose `execute` method `executeApplicableFeatures` invokes:
none when the initialization guard throws, otherwise exactly the applicable
features, each invoked once by the loop. -/
def invokedFeatures (pm : PluginManager) (sc : SiteConfig) (url : String) :
    List Feature :=
  if pm.isInitialized then getApplicableFeatures pm.registry sc url else []

/-- `PluginManager.registerPluginFeatures`: register every feature of the
plugin, the first one (`index === 0`) as the default implementation.
(`registerFeature` cannot throw, so the per-feature `catch` is dead.) -/
def registerPluginFeatures (reg : FeatureRegistry) (p : Plugin) : FeatureRegistry :=
  (p.features.enum).foldl
    (fun r e => registerFeature r e.2 (some p.id) (e.1 == 0)) reg

/-- Outcome of `PluginManager.loadPlugin`: the propagated exception if any,
the manager state afterwards, and the plugin object with its mutated
`status` field. -/
structure LoadOutcome where
  result : Except String Unit
  manager : PluginManager
  plugin : Plugin

/-- `PluginManager.loadPlugin`. -/
def loadPlugin (pm : PluginManager) (p : Plugin) : LoadOutcome :=
  if (alookup p.id pm.plugins).isSome then ⟨Except.ok (), pm, p⟩
  else
    let p1 := { p with status := PluginStatus.loading }
    match p1.initResult with
    | Except.error e => ⟨Except.error e, pm, { p1 with status := PluginStatus.error }⟩
    | Except.ok _ =>
      let reg' := registerPluginFeatures pm.registry p1
      match p1.activateResult with
      | none =>
        let p2 := { p1 with status := PluginStatus.loaded }
        ⟨Except.ok (), { pm with registry := reg', plugins := pm.plugins ++ [(p2.id, p2)] }, p2⟩
      | some act =>
        match act with
        | Except.error e =>
          ⟨Except.error e, { pm with registry := reg' }, { p1 with status := PluginStatus.error }⟩
        | Except.ok _ =>
          let p2 := { p1 with status := PluginStatus.active }
          ⟨Except.ok (), { pm with registry := reg', plugins := pm.plugins ++ [(p2.id, p2)] }, p2⟩

/-- A feature with the given id and implementation-name field whose
`isApplicable` is always true and whose `execute` always succeeds. -/
def mkFeature (i : String) (impl : Option String) : Feature :=
  ⟨i, i, "", "1.0.0", impl, fun _ _ => Except.ok true,
    fun _ => Except.ok ⟨true, none, none⟩⟩

/-- Implementation `"a"` of feature `"x"`. -/
def fXA : Feature := mkFeature "x" (some "a")

/-- Implementation `"b"` of feature `"x"`. -/
def fXB : Feature := mkFeature "x" (some "b")

/-- Feature `"x"` with implementations `"a"` (from plugin `p1`, the default)
and `"b"` (from plugin `p2`). -/
def c1Registry : FeatureRegistry :=
  registerFeature (registerFeature emptyRegistry fXA (some "p1") false) fXB (some "p2") false

/-- `c1Registry` after `unregisterFeature("x", undefined, "p1")`. -/
def c1After : FeatureRegistry := (unregisterFeature c1Registry "x" none (some "p1")).2

/-- Feature `"a"` (single implementation `"default"`). -/
def fA : Feature := mkFeature "a" none

/-- Feature `"b"` (single implementation `"default"`). -/
def fB : Feature := mkFeature "b" none

/-- Registry holding features `"a"` and `"b"`. -/
def c2Registry : FeatureRegistry :=
  registerFeature (registerFeature emptyRegistry fA none false) fB none false

/-- Mapping enabling feature `"a"` with priority `0`. -/
def mapA : FeatureMapping := ⟨"a", none, true, none, some 0⟩

/-- Mapping enabling feature `"b"` with priority `5`. -/
def mapB : FeatureMapping := ⟨"b", none, true, none, some 5⟩

/-- Site configuration enabling `"a"` (priority 0) then `"b"` (priority 5). -/
def c2Site : SiteConfig := ⟨"s", "s", [], [mapA, mapB], none, none, none⟩

/-- Feature `"x"` whose implementation-name field is the empty string. -/
def fEmptyName : Feature := mkFeature "x" (some "")

/-- A second implementation `"b"` of feature `"x"`. -/
def fNameB : Feature := mkFeature "x" (some "b")

/-- Feature `"x"` registered first under the name `""` (which becomes the
recorded default), then under `"b"`. -/
def c5Registry : FeatureRegistry :=
  registerFeature (registerFeature emptyRegistry fEmptyName none false) fNameB none false

/-- Feature registered under id `"b"`. -/
def fRealB : Feature := mkFeature "b" none

/-- Feature registered under id `"c"`. -/
def fRealC : Feature := mkFeature "c" none

/-- Features `"b"` and `"c"` registered, then `setAlias("a","b")` and
`setAlias("b","c")`. -/
def c9Registry : FeatureRegistry :=
  setAlias
    (setAlias
      (registerFeature (registerFeature emptyRegistry fRealB none false) fRealC none false)
      "a" "b")
    "b" "c"

/-- A plugin manager with nothing loaded and `isInitialized = false`. -/
def emptyManager : PluginManager := ⟨[], emptyRegistry, false⟩

/-- A plugin whose `initialize(context)` rejects with `"init failed"`. -/
def badPlugin : Plugin :=
  ⟨"bp", "Bad", "1.0.0", "", [], PluginStatus.unloaded, Except.error "init failed", none⟩

/-- Feature `"boom"` whose `execute` throws `"boom"`. -/
def boomFeature : Feature :=
  ⟨"boom", "Boom", "", "1.0.0", none, fun _ _ => Except.ok true,
    fun _ => Except.error "boom"⟩

/-- Feature `"calm"` whose `execute` succeeds. -/
def calmFeature : Feature := mkFeature "calm" none

/-- The plugin owning `boomFeature` and `calmFeature`. -/
def scPlugin : Plugin :=
  ⟨"p1", "P1", "1.0.0", "", [boomFeature, calmFeature], PluginStatus.active,
    Except.ok (), none⟩

/-- Registry with `boomFeature` and `calmFeature` registered for plugin `p1`. -/
def scRegistry : FeatureRegistry :=
  registerFeature (registerFeature emptyRegistry boomFeature (some "p1") true)
    calmFeature (some "p1") false

/-- An initialized manager having loaded `scPlugin`. -/
def scManager : PluginManager := ⟨[("p1", scPlugin)], scRegistry, true⟩

/-- Mapping enabling `"boom"` with priority 1. -/
def mapBoom : FeatureMapping := ⟨"boom", none, true, none, some 1⟩

/-- Mapping enabling `"calm"` with priority 2 and settings `[("k","v")]`. -/
def mapCalm : FeatureMapping := ⟨"calm", none, true, some [("k", "v")], some 2⟩

/-- Site configuration enabling `"boom"` then `"calm"`. -/
def scSite : SiteConfig := ⟨"sc", "SC", [], [mapBoom, mapCalm], none, none, none⟩

/-- Feature registered under id `"real-id"`. -/
def fReal : Feature := mkFeature "real-id" none

/-- Registry with `fReal` registered (no aliases yet). -/
def c9Base : FeatureRegistry := registerFeature emptyRegistry fReal none false

/-- Feature `"x"` registered under `"a"` (the default) and then under `""`. -/
def c6Registry : FeatureRegistry :=
  registerFeature (registerFeature emptyRegistry fXA none false) fEmptyName none false

/-- `c1Registry` (feature `"x"`, implementations `"a"` (default) and `"b"`)
with the additional alias `"x"` -> `"y"`. -/
def c6aRegistry : FeatureRegistry := setAlias c1Registry "x" "y"

/-- `scRegistry` with the alias `"al"` -> `"calm"`. -/
def c10Registry : FeatureRegistry := setAlias scRegistry "al" "calm"

/-- Site configuration whose only mapping names the alias `"al"`; the resolved
feature's own id `"calm"` appears in no mapping. -/
def c10Site : SiteConfig :=
  ⟨"s2", "S2", [], [⟨"al", none, true, some [("k", "v")], some 1⟩], none, none, none⟩

/-- An initialized manager over `c10Registry`. -/
def c10Manager : PluginManager := ⟨[("p1", scPlugin)], c10Registry, true⟩

theorem alookup_aset_self {α : Type} (k : String) (v : α) (l : List (String × α)) :
    alookup k (aset k v l) = some v := by
  induction l with
  | nil => simp [aset, alookup]
  | cons p t ih =>
    obtain ⟨a, b⟩ := p
    by_cases h : a = k
    · simp [aset, alookup, h]
    · simp [aset, alookup, h, ih]

theorem alookup_aset_ne {α : Type} (k k' : String) (v : α) (l : List (String × α))
    (h : k' ≠ k) : alookup k (aset k' v l) = alookup k l := by
  induction l with
  | nil => simp [aset, alookup, h]
  | cons p t ih =>
    obtain ⟨a, b⟩ := p
    by_cases ha : a = k'
    · subst ha
      simp [aset, alookup, h]
    · simp [aset, alookup, ha, ih]

theorem alookup_append_none {α : Type} (k : String) (l l' : List (String × α))
    (h : alookup k l = none) : alookup k (l ++ l') = alookup k l' := by
  induction l with
  | nil => simp
  | cons p t ih =>
    obtain ⟨a, b⟩ := p
    by_cases ha : a = k
    · simp [alookup, ha] at h
    · simp [alookup, ha] at h ⊢
      exact ih h

theorem aset_aset {α : Type} (k : String) (v w : α) (l : List (String × α)) :
    aset k v (aset k w l) = aset k v l := by
  induction l with
  | nil => simp [aset]
  | cons p t ih =>
    obtain ⟨a, b⟩ := p
    by_cases h : a = k
    · simp [aset, h]
    · simp [aset, h, ih]

theorem sum_map_aset_eq {α : Type} (f : α → Nat) (k : String) (v w : α)
    (l : List (String × α)) (hf : f v = f w) :
    ((aset k v l).map (fun p => f p.2)).sum = ((aset k w l).map (fun p => f p.2)).sum := by
  induction l with
  | nil => simp [aset, hf]
  | cons p t ih =>
    obtain ⟨a, b⟩ := p
    by_cases h : a = k
    · simp [aset, h, hf]
    · simp [aset, h]
      omega

theorem mem_aupdate_self {α : Type} (k : String) (f : α → α) (l : List (String × α))
    (b : α) (h : alookup k l = some b) : (k, f b) ∈ aupdate k f l := by
  induction l with
  | nil => simp [alookup] at h
  | cons p t ih =>
    obtain ⟨a, c⟩ := p
    by_cases ha : a = k
    · subst ha
      simp [alookup] at h
      subst h
      simp [aupdate]
    · simp [alookup, ha] at h
      simp [aupdate, ha]
      exact Or.inr (ih h)

theorem mem_aupdate_of_mem {α : Type} (k : String) (f : α → α) (l : List (String × α))
    (q : String) (pr : α) (h : (q, pr) ∈ l) :
    ∃ pr', (q, pr') ∈ aupdate k f l ∧ (pr' = pr ∨ pr' = f pr) := by
  induction l with
  | nil => simp at h
  | cons p t ih =>
    obtain ⟨a, c⟩ := p
    rcases List.mem_cons.mp h with heq | ht
    · injection heq with h1 h2
      subst h1
      subst h2
      by_cases ha : q = k
      · subst ha
        exact ⟨f pr, by simp [aupdate], Or.inr rfl⟩
      · exact ⟨pr, by simp [aupdate, ha], Or.inl rfl⟩
    · by_cases ha : a = k
      · subst ha
        exact ⟨pr, by simp [aupdate]; exact Or.inr ht, Or.inl rfl⟩
      · obtain ⟨pr', hmem, hor⟩ := ih ht
        exact ⟨pr', by simp [aupdate, ha]; exact Or.inr hmem, hor⟩

theorem insertByKey_perm {α : Type} (key : α → Int) (a : α) (l : List α) :
    List.Perm (insertByKey key a l) (a :: l) := by
  induction l with
  | nil => exact List.Perm.refl _
  | cons b t ih =>
    by_cases h : key a < key b
    · simp [insertByKey, h]
    · simp only [insertByKey, if_neg h]
      exact List.Perm.trans (List.Perm.cons b ih) (List.Perm.swap a b t)

theorem foldl_insertByKey_perm {α : Type} (key : α → Int) (l acc : List α) :
    List.Perm (l.foldl (fun acc a => insertByKey key a acc) acc) (acc ++ l) := by
  induction l generalizing acc with
  | nil => simp
  | cons a t ih =>
    refine List.Perm.trans (ih (insertByKey key a acc)) ?_
    refine List.Perm.trans (List.Perm.append_right t (insertByKey_perm key a acc)) ?_
    exact List.Perm.symm (List.perm_middle)

theorem stableSortByKey_perm {α : Type} (key : α → Int) (l : List α) :
    List.Perm (stableSortByKey key l) l := by
  simpa [stableSortByKey] using foldl_insertByKey_perm key l []

theorem pairwise_insertByKey {α : Type} (key : α → Int) (a : α) (l : List α)
    (h : List.Pairwise (fun x y => key x ≤ key y) l) :
    List.Pairwise (fun x y => key x ≤ key y) (insertByKey key a l) := by
  induction l with
  | nil => simp [insertByKey]
  | cons b t ih =>
    rcases List.pairwise_cons.mp h with ⟨hb, ht⟩
    by_cases hlt : key a < key b
    · simp only [insertByKey, if_pos hlt]
      refine List.pairwise_cons.mpr ⟨?_, h⟩
      intro x hx
      rcases List.mem_cons.mp hx with rfl | hxt
      · exact le_of_lt hlt
      · exact le_trans (le_of_lt hlt) (hb x hxt)
    · simp only [insertByKey, if_neg hlt]
      refine List.pairwise_cons.mpr ⟨?_, ih ht⟩
      intro x hx
      rcases List.mem_cons.mp ((insertByKey_perm key a t).mem_iff.mp hx) with rfl | hxt
      · exact le_of_not_lt hlt
      · exact hb x hxt

theorem pairwise_foldl_insertByKey {α : Type} (key : α → Int) (l acc : List α)
    (h : List.Pairwise (fun x y => key x ≤ key y) acc) :
    List.Pairwise (fun x y => key x ≤ key y)
      (l.foldl (fun acc a => insertByKey key a acc) acc) := by
  induction l generalizing acc with
  | nil => simpa using h
  | cons a t ih => exact ih _ (pairwise_insertByKey key a acc h)

theorem pairwise_stableSortByKey {α : Type} (key : α → Int) (l : List α) :
    List.Pairwise (fun x y => key x ≤ key y) (stableSortByKey key l) :=
  pairwise_foldl_insertByKey key l [] (List.Pairwise.nil)

theorem insertByKey_decomp {α : Type} (key : α → Int) (a : α) (l : List α)
    (h : List.Pairwise (fun x y => key x ≤ key y) l) :
    ∃ l₁ l₂, l = l₁ ++ l₂ ∧ insertByKey key a l = l₁ ++ a :: l₂ ∧
      ∀ b ∈ l₂, key a < key b := by
  induction l with
  | nil => exact ⟨[], [], rfl, rfl, by simp⟩
  | cons b t ih =>
    rcases List.pairwise_cons.mp h with ⟨hb, ht⟩
    by_cases hlt : key a < key b
    · refine ⟨[], b :: t, rfl, by simp [insertByKey, hlt], ?_⟩
      intro x hx
      rcases List.mem_cons.mp hx with rfl | hxt
      · exact hlt
      · exact lt_of_lt_of_le hlt (hb x hxt)
    · obtain ⟨t₁, t₂, hteq, hins, hgt⟩ := ih ht
      refine ⟨b :: t₁, t₂, by simp [hteq], ?_, hgt⟩
      simp only [insertByKey, if_neg hlt, hins]
      rfl

theorem filter_insertByKey {α : Type} (key : α → Int) (a : α) (l : List α) (k : Int)
    (h : List.Pairwise (fun x y => key x ≤ key y) l) :
    (insertByKey key a l).filter (fun x => key x == k) =
      if key a = k then l.filter (fun x => key x == k) ++ [a]
      else l.filter (fun x => key x == k) := by
  obtain ⟨l₁, l₂, hl, hins, hgt⟩ := insertByKey_decomp key a l h
  subst hl
  rw [hins]
  by_cases hk : key a = k
  · have h2 : l₂.filter (fun x => key x == k) = [] := by
      rw [List.filter_eq_nil_iff]
      intro b hb
      have := hgt b hb
      simp only [beq_iff_eq]
      omega
    simp [List.filter_append, hk, h2]
  · have : (key a == k) = false := by simp [hk]
    simp [List.filter_append, hk, this]

theorem filter_foldl_insertByKey {α : Type} (key : α → Int) (k : Int)
    (l acc : List α) (hacc : List.Pairwise (fun x y => key x ≤ key y) acc) :
    (l.foldl (fun acc a => insertByKey key a acc) acc).filter (fun x => key x == k) =
      acc.filter (fun x => key x == k) ++ l.filter (fun x => key x == k) := by
  induction l generalizing acc with
  | nil => simp
  | cons a t ih =>
    have step := ih (insertByKey key a acc) (pairwise_insertByKey key a acc hacc)
    simp only [List.foldl_cons]
    rw [step, filter_insertByKey key a acc k hacc]
    by_cases hk : key a = k
    · simp [hk, List.filter_cons]
    · have : (key a == k) = false := by simp [hk]
      simp [hk, List.filter_cons, this]

theorem filter_stableSortByKey {α : Type} (key : α → Int) (k : Int) (l : List α) :
    (stableSortByKey key l).filter (fun x => key x == k) =
      l.filter (fun x => key x == k) := by
  simpa [stableSortByKey] using
    filter_foldl_insertByKey key k l [] (List.Pairwise.nil)

theorem map_snd_filterMap_pair {α β : Type} (g : α → Option β) (l : List α) :
    (l.filterMap (fun m => (g m).map (fun f => (m, f)))).map Prod.snd = l.filterMap g := by
  induction l with
  | nil => simp
  | cons a t ih =>
    cases h : g a with
    | none => simp [List.filterMap_cons, h, ih]
    | some b => simp [List.filterMap_cons, h, ih]

theorem map_fst_filterMap_pair_sublist {α β : Type} (g : α → Option β) (l : List α) :
    List.Sublist ((l.filterMap (fun m => (g m).map (fun f => (m, f)))).map Prod.fst) l := by
  induction l with
  | nil => simp
  | cons a t ih =>
    cases h : g a with
    | none =>
      simp only [List.filterMap_cons, h, Option.map_none']
      exact List.Sublist.cons a ih
    | some b =>
      simp only [List.filterMap_cons, h, Option.map_some', List.map_cons]
      exact List.Sublist.cons₂ a ih

theorem find?_append_first {α : Type} (p : α → Bool) (l1 l2 : List α) (m : α)
    (h1 : ∀ x ∈ l1, p x = false) (h2 : p m = true) :
    (l1 ++ m :: l2).find? p = some m := by
  induction l1 with
  | nil => simp [List.find?_cons, h2]
  | cons a t ih =>
    have ha : p a = false := h1 a (List.mem_cons_self a t)
    simp only [List.cons_append, List.find?_cons, ha]
    exact ih (fun x hx => h1 x (List.mem_cons_of_mem a hx))

theorem alookup_some_mem {α : Type} (k : String) (l : List (String × α)) (b : α)
    (h : alookup k l = some b) : (k, b) ∈ l := by
  induction l with
  | nil => simp [alookup] at h
  | cons p t ih =>
    obtain ⟨a, c⟩ := p
    by_cases ha : a = k
    · subst ha
      simp [alookup] at h
      simp [h]
    · simp [alookup, ha] at h
      exact List.mem_cons_of_mem _ (ih h)

theorem mem_aupdate_cases {α : Type} (k : String) (g : α → α) (l : List (String × α))
    (p : String × α) (h : p ∈ aupdate k g l) :
    p ∈ l ∨ ∃ b, (p.1, b) ∈ l ∧ p.2 = g b := by
  induction l with
  | nil => simp [aupdate] at h
  | cons q t ih =>
    obtain ⟨a, c⟩ := q
    by_cases ha : a = k
    · subst ha
      simp only [aupdate, if_pos rfl] at h
      rcases List.mem_cons.mp h with rfl | ht
      · exact Or.inr ⟨c, List.mem_cons_self _ _, rfl⟩
      · exact Or.inl (List.mem_cons_of_mem _ ht)
    · simp only [aupdate, if_neg ha] at h
      rcases List.mem_cons.mp h with rfl | ht
      · exact Or.inl (List.mem_cons_self _ _)
      · rcases ih ht with hl | ⟨b, hb, he⟩
        · exact Or.inl (List.mem_cons_of_mem _ hl)
        · exact Or.inr ⟨b, List.mem_cons_of_mem _ hb, he⟩

theorem applyOutcome_pluginId (f : Feature) (outcome : Except String FeatureExecutionResult)
    (pr : PluginExecutionResult) : (applyOutcome f outcome pr).pluginId = pr.pluginId := by
  cases outcome with
  | ok r => rfl
  | error e => rfl

theorem applyOutcome_mem_executed (f : Feature) (outcome : Except String FeatureExecutionResult)
    (pr : PluginExecutionResult) (e : ExecutedFeature) (he : e ∈ pr.executedFeatures) :
    e ∈ (applyOutcome f outcome pr).executedFeatures := by
  cases outcome with
  | ok r => simp [applyOutcome]; exact Or.inl he
  | error err => simp [applyOutcome]; exact Or.inl he

theorem applyOutcome_success_false (f : Feature) (outcome : Except String FeatureExecutionResult)
    (pr : PluginExecutionResult) (h : pr.success = false) :
    (applyOutcome f outcome pr).success = false := by
  cases outcome with
  | ok r =>
    simp only [applyOutcome]
    by_cases hs : r.success <;> simp [hs, h]
  | error err => rfl

theorem applyOutcome_records (f : Feature) (outcome : Except String FeatureExecutionResult)
    (pr : PluginExecutionResult) :
    (⟨f.id, getImplementationName f, mkExecResult outcome⟩ : ExecutedFeature) ∈
      (applyOutcome f outcome pr).executedFeatures := by
  cases outcome with
  | ok r => simp [applyOutcome, mkExecResult]
  | error err => simp [applyOutcome, mkExecResult]

theorem applyOutcome_fail_success (f : Feature) (outcome : Except String FeatureExecutionResult)
    (pr : PluginExecutionResult) (h : (mkExecResult outcome).success = false) :
    (applyOutcome f outcome pr).success = false := by
  cases outcome with
  | ok r =>
    simp only [mkExecResult] at h
    simp [applyOutcome, h]
  | error err => rfl

theorem stepFeature_inv (pm : PluginManager) (sc : SiteConfig) (url : String)
    (acc : List (String × PluginExecutionResult)) (f : Feature)
    (h : ∀ p ∈ acc, p.2.pluginId = p.1) :
    ∀ p ∈ stepFeature pm sc url acc f, p.2.pluginId = p.1 := by
  intro p hp
  simp only [stepFeature] at hp
  have h1 : ∀ q ∈ (if (alookup (getFeaturePluginId pm f) acc).isSome then acc
      else acc ++ [(getFeaturePluginId pm f,
        ⟨getFeaturePluginId pm f, true, [], []⟩)]), q.2.pluginId = q.1 := by
    intro q hq
    by_cases hc : (alookup (getFeaturePluginId pm f) acc).isSome
    · rw [if_pos hc] at hq
      exact h q hq
    · rw [if_neg hc] at hq
      rcases List.mem_append.mp hq with hqa | hqs
      · exact h q hqa
      · simp at hqs
        simp [hqs]
  rcases mem_aupdate_cases _ _ _ p hp with hmem | ⟨b, hb, he⟩
  · exact h1 p hmem
  · rw [he, applyOutcome_pluginId]
    exact h1 (p.1, b) hb

theorem stepFeature_mono (pm : PluginManager) (sc : SiteConfig) (url : String)
    (acc : List (String × PluginExecutionResult)) (f : Feature)
    (q : String) (pr : PluginExecutionResult) (h : (q, pr) ∈ acc) :
    ∃ pr', (q, pr') ∈ stepFeature pm sc url acc f ∧ pr'.pluginId = pr.pluginId ∧
      (∀ e ∈ pr.executedFeatures, e ∈ pr'.executedFeatures) ∧
      (pr.success = false → pr'.success = false) := by
  simp only [stepFeature]
  have h1 : (q, pr) ∈ (if (alookup (getFeaturePluginId pm f) acc).isSome then acc
      else acc ++ [(getFeaturePluginId pm f,
        ⟨getFeaturePluginId pm f, true, [], []⟩)]) := by
    by_cases hc : (alookup (getFeaturePluginId pm f) acc).isSome
    · rw [if_pos hc]; exact h
    · rw [if_neg hc]; exact List.mem_append_left _ h
  obtain ⟨pr', hmem, hor⟩ := mem_aupdate_of_mem _ _ _ q pr h1
  rcases hor with rfl | rfl
  · exact ⟨pr', hmem, rfl, fun e he => he, fun hs => hs⟩
  · exact ⟨_, hmem, applyOutcome_pluginId _ _ _,
      fun e he => applyOutcome_mem_executed _ _ _ e he,
      fun hs => applyOutcome_success_false _ _ _ hs⟩

theorem foldl_step_mono (pm : PluginManager) (sc : SiteConfig) (url : String)
    (feats : List Feature) (acc : List (String × PluginExecutionResult))
    (q : String) (pr : PluginExecutionResult) (h : (q, pr) ∈ acc) :
    ∃ pr', (q, pr') ∈ feats.foldl (stepFeature pm sc url) acc ∧
      pr'.pluginId = pr.pluginId ∧
      (∀ e ∈ pr.executedFeatures, e ∈ pr'.executedFeatures) ∧
      (pr.success = false → pr'.success = false) := by
  induction feats generalizing acc pr with
  | nil => exact ⟨pr, h, rfl, fun e he => he, fun hs => hs⟩
  | cons g t ih =>
    obtain ⟨pr1, hm1, hp1, he1, hs1⟩ := stepFeature_mono pm sc url acc g q pr h
    obtain ⟨pr2, hm2, hp2, he2, hs2⟩ := ih (stepFeature pm sc url acc g) pr1 hm1
    exact ⟨pr2, hm2, hp2.trans hp1, fun e he => he2 e (he1 e he),
      fun hs => hs2 (hs1 hs)⟩

theorem stepFeature_records (pm : PluginManager) (sc : SiteConfig) (url : String)
    (acc : List (String × PluginExecutionResult)) (f : Feature)
    (hinv : ∀ p ∈ acc, p.2.pluginId = p.1) :
    ∃ pr', (getFeaturePluginId pm f, pr') ∈ stepFeature pm sc url acc f ∧
      pr'.pluginId = getFeaturePluginId pm f ∧
      (⟨f.id, getImplementationName f,
        mkExecResult (f.execute (featureContext sc url f))⟩ : ExecutedFeature) ∈
        pr'.executedFeatures ∧
      ((mkExecResult (f.execute (featureContext sc url f))).success = false →
        pr'.success = false) := by
  simp only [stepFeature]
  have hbase : ∃ pr0, alookup (getFeaturePluginId pm f)
      (if (alookup (getFeaturePluginId pm f) acc).isSome then acc
       else acc ++ [(getFeaturePluginId pm f,
         ⟨getFeaturePluginId pm f, true, [], []⟩)]) = some pr0 ∧
      pr0.pluginId = getFeaturePluginId pm f := by
    cases hc : alookup (getFeaturePluginId pm f) acc with
    | some pr0 =>
      refine ⟨pr0, ?_, hinv _ (alookup_some_mem _ _ _ hc)⟩
      simp [hc]
    | none =>
      refine ⟨⟨getFeaturePluginId pm f, true, [], []⟩, ?_, rfl⟩
      rw [if_neg (by simp [hc])]
      rw [alookup_append_none _ _ _ hc]
      simp [alookup]
  obtain ⟨pr0, hlook, hpid0⟩ := hbase
  refine ⟨applyOutcome f (f.execute (featureContext sc url f)) pr0,
    mem_aupdate_self _ _ _ pr0 hlook, ?_, applyOutcome_records _ _ _,
    fun hfail => applyOutcome_fail_success _ _ _ hfail⟩
  rw [applyOutcome_pluginId]
  exact hpid0

theorem foldl_step_records (pm : PluginManager) (sc : SiteConfig) (url : String)
    (feats : List Feature) (acc : List (String × PluginExecutionResult))
    (hinv : ∀ p ∈ acc, p.2.pluginId = p.1) (g : Feature) (hg : g ∈ feats) :
    ∃ q pr', (q, pr') ∈ feats.foldl (stepFeature pm sc url) acc ∧
      pr'.pluginId = getFeaturePluginId pm g ∧
      (⟨g.id, getImplementationName g,
        mkExecResult (g.execute (featureContext sc url g))⟩ : ExecutedFeature) ∈
        pr'.executedFeatures ∧
      ((mkExecResult (g.execute (featureContext sc url g))).success = false →
        pr'.success = false) := by
  induction feats generalizing acc with
  | nil => simp at hg
  | cons a t ih =>
    rcases List.mem_cons.mp hg with rfl | hgt
    · obtain ⟨pr1, hm1, hp1, he1, hs1⟩ := stepFeature_records pm sc url acc g hinv
      obtain ⟨pr2, hm2, hp2, he2, hs2⟩ :=
        foldl_step_mono pm sc url t (stepFeature pm sc url acc g) _ pr1 hm1
      exact ⟨_, pr2, hm2, hp2.trans hp1, he2 _ he1, fun hfail => hs2 (hs1 hfail)⟩
    · exact ih (stepFeature pm sc url acc a) (stepFeature_inv pm sc url acc a hinv) hgt

/-- C8: `executeApplicableFeatures` on a manager whose initialization has not
completed throws `"PluginManager not initialized"` and invokes no feature's
`execute` method. -/
theorem C8_uninitialized_manager_throws (pm : PluginManager) (sc : SiteConfig)
    (url : String) (h : pm.isInitialized = false) :
    executeApplicableFeatures pm sc url = Except.error "PluginManager not initialized" ∧
    invokedFeatures pm sc url = [] := by
  simp [executeApplicableFeatures, invokedFeatures, h]

theorem C8_uninitialized_manager_throws_witness :
    emptyManager.isInitialized = false ∧
    (executeApplicableFeatures emptyManager c2Site "u" =
        Except.error "PluginManager not initialized" ∧
      invokedFeatures emptyManager c2Site "u" = []) :=
  ⟨rfl, C8_uninitialized_manager_throws emptyManager c2Site "u" rfl⟩

/-- C4: when a plugin is not already loaded and its `initialize(context)`
throws, `loadPlugin` sets the plugin status to ERROR, rethrows the error, and
leaves the manager unchanged (no feature registered, plugin not added to the
loaded-plugin map). -/
theorem C4_loadPlugin_initialization_failure (pm : PluginManager) (p : Plugin)
    (e : String) (hnew : alookup p.id pm.plugins = none)
    (hfail : p.initResult = Except.error e) :
    loadPlugin pm p = ⟨Except.error e, pm, { p with status := PluginStatus.error }⟩ := by
  simp [loadPlugin, hnew, hfail]

theorem C4_loadPlugin_initialization_failure_witness :
    alookup badPlugin.id emptyManager.plugins = none ∧
    badPlugin.initResult = Except.error "init failed" ∧
    loadPlugin emptyManager badPlugin =
      ⟨Except.error "init failed", emptyManager,
        { badPlugin with status := PluginStatus.error }⟩ :=
  ⟨rfl, rfl, C4_loadPlugin_initialization_failure emptyManager badPlugin "init failed" rfl rfl⟩

/-- C1: evaluation of the code at the failing input. Feature `"x"` has
implementations `"a"` (plugin `p1`, the recorded default) and `"b"` (plugin
`p2`). `unregisterFeature("x", undefined, "p1")` removes `"a"` and reports
success, implementation `"b"` remains registered, yet the
default-implementation table still names the deleted `"a"`, and
`getFeature("x")` with no implementation name returns nothing: the invariant
claimed for the default table is violated by this branch of the code. -/
theorem C1_default_table_invariant_violation :
    (unregisterFeature c1Registry "x" none (some "p1")).1 = true ∧
    alookup "x" c1After.defaultImplementations = some "a" ∧
    (alookup "x" c1After.features).map (fun l => l.map Prod.fst) = some ["b"] ∧
    getFeature c1After "x" (some "b") = some fXB ∧
    getFeature c1After "x" none = none :=
  ⟨rfl, rfl, rfl, rfl, rfl⟩

/-- C9 counterexample: with `setAlias("a","b")` and `setAlias("b","c")` and
features registered under ids `"b"` and `"c"`, `getFeature("a")` yields the
feature with id `"b"` while `getFeature("b")` yields the feature with id
`"c"` — so `getFeature(alias)` does not in general equal
`getFeature(featureId)`: the claimed equation fails as soon as the target
featureId is itself an alias key, precisely because resolution is single-hop
on each call. -/
theorem C9_alias_equation_counterexample :
    (getFeature c9Registry "a" none).map Feature.id = some "b" ∧
    (getFeature c9Registry "b" none).map Feature.id = some "c" :=
  ⟨rfl, rfl⟩

/-- C9 (amended): after `setAlias(alias, featureId)`, and provided the target
`featureId` is not itself registered as an alias key and is nonempty (an
empty-string alias target is falsy and is ignored), `getFeature(alias, …)`
returns the same result as `getFeature(featureId, …)`; resolution is applied
exactly once — `getFeature(alias)` reads the feature table directly under
`featureId`. -/
theorem C9_alias_single_hop (reg : FeatureRegistry) (aliasName fid : String)
    (nameOpt : Option String) (hfid : fid ≠ "")
    (hnoalias : alookup fid reg.aliases = none) (hne : aliasName ≠ fid) :
    getFeature (setAlias reg aliasName fid) aliasName nameOpt =
      getFeature (setAlias reg aliasName fid) fid nameOpt := by
  have h1 : alookup aliasName (aset aliasName fid reg.aliases) = some fid :=
    alookup_aset_self aliasName fid reg.aliases
  have h2 : alookup fid (aset aliasName fid reg.aliases) = none := by
    rw [alookup_aset_ne fid aliasName fid reg.aliases hne]
    exact hnoalias
  simp only [getFeature, setAlias, h1, h2, if_neg hfid]

theorem C9_alias_single_hop_witness :
    ("real-id" : String) ≠ "" ∧
    alookup "real-id" c9Base.aliases = none ∧
    ("alias-name" : String) ≠ "real-id" ∧
    getFeature (setAlias c9Base "alias-name" "real-id") "alias-name" none =
      getFeature (setAlias c9Base "alias-name" "real-id") "real-id" none :=
  ⟨by decide, rfl, by decide,
    C9_alias_single_hop c9Base "alias-name" "real-id" none (by decide) rfl (by decide)⟩

/-- C5 counterexample: feature `"x"` is registered first under the
implementation name `""` (a legal, distinct name — it becomes the recorded
default) and then under `"b"`. The claim demands that `getFeature("x")` with
no implementation name return the first-registered feature, but the code
treats the recorded default `""` as falsy (`if (!implName)`) and returns
nothing; likewise `getFeature("x","")` falls back to the default instead of
looking up the `""` entry. -/
theorem C5_empty_name_counterexample :
    fEmptyName.id = fNameB.id ∧
    getImplementationName fEmptyName ≠ getImplementationName fNameB ∧
    (alookup "x" c5Registry.features).map (fun l => l.map Prod.fst) = some ["", "b"] ∧
    getFeature c5Registry "x" none = none :=
  ⟨rfl, by decide, rfl, rfl⟩

/-- C5 (amended): after registering, into a fresh registry, two features with
the same `featureId` and distinct *nonempty* implementation names (neither
with `isDefault`), `getFeature(featureId, implementationName)` returns each
respective feature and `getFeature(featureId)` returns the first-registered
one; registering the second with `isDefault = true` instead makes it the
default. (The nonemptiness proviso is forced by the counterexample: an
empty-string name is treated as absent by `getFeature`.) -/
theorem C5_two_distinct_implementations (f g : Feature) (p q : Option String)
    (hid : g.id = f.id)
    (hnf : getImplementationName f ≠ "")
    (hng : getImplementationName g ≠ "")
    (hne : getImplementationName g ≠ getImplementationName f) :
    getFeature (registerFeature (registerFeature emptyRegistry f p false) g q false)
        f.id (some (getImplementationName f)) = some f ∧
    getFeature (registerFeature (registerFeature emptyRegistry f p false) g q false)
        f.id (some (getImplementationName g)) = some g ∧
    getFeature (registerFeature (registerFeature emptyRegistry f p false) g q false)
        f.id none = some f ∧
    getFeature (registerFeature (registerFeature emptyRegistry f p false) g q true)
        f.id none = some g := by
  have hne' : getImplementationName f ≠ getImplementationName g := fun h => hne h.symm
  have h1f : (registerFeature emptyRegistry f p false).features =
      [(f.id, [(getImplementationName f, ⟨f, p⟩)])] := by
    simp [registerFeature, emptyRegistry, aset, alookup]
  have h1d : (registerFeature emptyRegistry f p false).defaultImplementations =
      [(f.id, getImplementationName f)] := by
    simp [registerFeature, emptyRegistry, aset, alookup]
  have h1a : (registerFeature emptyRegistry f p false).aliases = [] := by
    simp [registerFeature, emptyRegistry]
  have h2f : ∀ d : Bool,
      (registerFeature (registerFeature emptyRegistry f p false) g q d).features =
        [(f.id, [(getImplementationName f, ⟨f, p⟩), (getImplementationName g, ⟨g, q⟩)])] := by
    intro d
    simp [registerFeature, h1f, hid, aset, alookup, hne']
  have h2a : ∀ d : Bool,
      (registerFeature (registerFeature emptyRegistry f p false) g q d).aliases = [] := by
    intro d
    simp [registerFeature, h1a, emptyRegistry]
  have h2d : (registerFeature (registerFeature emptyRegistry f p false) g q
      false).defaultImplementations = [(f.id, getImplementationName f)] := by
    simp [registerFeature, h1d, hid, alookup, emptyRegistry, aset]
  have h2d' : (registerFeature (registerFeature emptyRegistry f p false) g q
      true).defaultImplementations = [(f.id, getImplementationName g)] := by
    simp [registerFeature, h1d, hid, aset, alookup, emptyRegistry]
  refine ⟨?_, ?_, ?_, ?_⟩
  · simp [getFeature, h2f false, h2d, h2a false, alookup, hnf]
  · simp [getFeature, h2f false, h2d, h2a false, alookup, hng, hne']
  · simp [getFeature, h2f false, h2d, h2a false, alookup, hnf]
  · simp [getFeature, h2f true, h2d', h2a true, alookup, hng, hne']

theorem C5_two_distinct_implementations_witness :
    fXB.id = fXA.id ∧
    getImplementationName fXA ≠ "" ∧
    getImplementationName fXB ≠ "" ∧
    getImplementationName fXB ≠ getImplementationName fXA ∧
    (getFeature (registerFeature (registerFeature emptyRegistry fXA (some "p1") false)
        fXB (some "p2") false) fXA.id (some (getImplementationName fXA)) = some fXA ∧
     getFeature (registerFeature (registerFeature emptyRegistry fXA (some "p1") false)
        fXB (some "p2") false) fXA.id (some (getImplementationName fXB)) = some fXB ∧
     getFeature (registerFeature (registerFeature emptyRegistry fXA (some "p1") false)
        fXB (some "p2") false) fXA.id none = some fXA ∧
     getFeature (registerFeature (registerFeature emptyRegistry fXA (some "p1") false)
        fXB (some "p2") true) fXA.id none = some fXB) :=
  ⟨rfl, by decide, by decide, by decide,
    C5_two_distinct_implementations fXA fXB (some "p1") (some "p2") rfl
      (by decide) (by decide) (by decide)⟩

/-- C6 (amended): `unregisterFeature(featureId, implementationName)` called
with a nonempty implementation name (an empty one is falsy and removes the
whole featureId instead) that names the implementation currently recorded as
default, while at least one other implementation remains, repairs the default
table so that `getFeature(featureId)` with no implementation name still
returns a registered feature (the first remaining implementation, here named
`k0`), provided `k0` is nonempty and `featureId` is not shadowed by an
alias. Each proviso is forced by one part of the counterexample. -/
theorem C6_default_repaired_after_unregister (reg : FeatureRegistry)
    (fid dname k0 : String) (impls : List (String × FeatureRegistryEntry))
    (entry e0 : FeatureRegistryEntry) (rest : List (String × FeatureRegistryEntry))
    (hdname : dname ≠ "")
    (halias : alookup fid reg.aliases = none)
    (himpls : alookup fid reg.features = some impls)
    (hdef : alookup fid reg.defaultImplementations = some dname)
    (hentry : alookup dname impls = some entry)
    (hrem : aerase dname impls = (k0, e0) :: rest)
    (hk0 : k0 ≠ "") :
    (unregisterFeature reg fid (some dname) none).1 = true ∧
    getFeature (unregisterFeature reg fid (some dname) none).2 fid none =
      some e0.feature ∧
    alookup fid (unregisterFeature reg fid (some dname) none).2.features =
      some ((k0, e0) :: rest) ∧
    alookup fid (unregisterFeature reg fid (some dname) none).2.defaultImplementations =
      some k0 := by
  have hres : unregisterFeature reg fid (some dname) none =
      (true, ⟨aset fid ((k0, e0) :: rest) reg.features,
              aset fid k0 reg.defaultImplementations, reg.aliases⟩) := by
    have hd2 : (if dname = "" then (none : Option String) else some dname) =
        some dname := if_neg hdname
    simp only [unregisterFeature, himpls, hd2, hdef]
    rw [hentry, hrem]
    simp
  rw [hres]
  refine ⟨rfl, ?_, alookup_aset_self _ _ _, alookup_aset_self _ _ _⟩
  simp only [getFeature, halias]
  rw [alookup_aset_self fid ((k0, e0) :: rest) reg.features]
  rw [alookup_aset_self fid k0 reg.defaultImplementations]
  simp [alookup, hk0]

theorem C6_default_repaired_after_unregister_witness :
    ("a" : String) ≠ "" ∧
    alookup "x" c1Registry.aliases = none ∧
    alookup "x" c1Registry.features =
      some [("a", ⟨fXA, some "p1"⟩), ("b", ⟨fXB, some "p2"⟩)] ∧
    alookup "x" c1Registry.defaultImplementations = some "a" ∧
    alookup "a" [("a", (⟨fXA, some "p1"⟩ : FeatureRegistryEntry)),
      ("b", ⟨fXB, some "p2"⟩)] = some ⟨fXA, some "p1"⟩ ∧
    aerase "a" [("a", (⟨fXA, some "p1"⟩ : FeatureRegistryEntry)),
      ("b", ⟨fXB, some "p2"⟩)] = [("b", ⟨fXB, some "p2"⟩)] ∧
    ("b" : String) ≠ "" ∧
    ((unregisterFeature c1Registry "x" (some "a") none).1 = true ∧
      getFeature (unregisterFeature c1Registry "x" (some "a") none).2 "x" none =
        some fXB ∧
      alookup "x" (unregisterFeature c1Registry "x" (some "a") none).2.features =
        some [("b", ⟨fXB, some "p2"⟩)] ∧
      alookup "x"
          (unregisterFeature c1Registry "x" (some "a") none).2.defaultImplementations =
        some "b") :=
  ⟨by decide, rfl, rfl, rfl, rfl, rfl, by decide,
    C6_default_repaired_after_unregister c1Registry "x" "a" "b"
      [("a", ⟨fXA, some "p1"⟩), ("b", ⟨fXB, some "p2"⟩)]
      ⟨fXA, some "p1"⟩ ⟨fXB, some "p2"⟩ []
      (by decide) rfl rfl rfl rfl rfl (by decide)⟩

theorem length_aset_congr {α : Type} (k : String) (v w : α) (l : List (String × α)) :
    (aset k v l).length = (aset k w l).length := by
  induction l with
  | nil => rfl
  | cons p t ih =>
    obtain ⟨a, b⟩ := p
    by_cases h : a = k
    · simp [aset, h]
    · simp [aset, h, ih]

/-- C7: registering a feature under a `(featureId, implementationName)` key
that is already registered replaces the prior entry with the new one, and
`getStats().totalImplementations` counts the key once (the total is unchanged
by the re-registration). -/
theorem C7_reregistration_overwrites (reg : FeatureRegistry) (f g : Feature)
    (p q : Option String) (d e : Bool)
    (hid : g.id = f.id) (hname : getImplementationName g = getImplementationName f) :
    (∃ impls,
      alookup f.id (registerFeature (registerFeature reg f p d) g q e).features =
        some impls ∧
      alookup (getImplementationName f) impls = some ⟨g, q⟩) ∧
    (getStats (registerFeature (registerFeature reg f p d) g q e)).totalImplementations =
      (getStats (registerFeature reg f p d)).totalImplementations := by
  have hr1 : (registerFeature reg f p d).features =
      aset f.id (aset (getImplementationName f) ⟨f, p⟩
        ((alookup f.id reg.features).getD [])) reg.features := by
    simp [registerFeature]
  have hl : alookup g.id (registerFeature reg f p d).features =
      some (aset (getImplementationName f) ⟨f, p⟩
        ((alookup f.id reg.features).getD [])) := by
    rw [hid, hr1]
    exact alookup_aset_self _ _ _
  have hr2 : (registerFeature (registerFeature reg f p d) g q e).features =
      aset f.id (aset (getImplementationName f) ⟨g, q⟩
        ((alookup f.id reg.features).getD [])) reg.features := by
    simp only [registerFeature, hname, hid, hr1, alookup_aset_self, Option.getD_some]
    rw [aset_aset, aset_aset]
  constructor
  · refine ⟨aset (getImplementationName f) ⟨g, q⟩
      ((alookup f.id reg.features).getD []), ?_, alookup_aset_self _ _ _⟩
    rw [hr2]
    exact alookup_aset_self _ _ _
  · simp only [getStats, hr2, hr1]
    exact sum_map_aset_eq List.length f.id _ _ reg.features
      (length_aset_congr _ _ _ _)

theorem C7_reregistration_overwrites_witness :
    fNameB.id = fXB.id ∧
    getImplementationName fNameB = getImplementationName fXB ∧
    ((∃ impls,
      alookup fXB.id
          (registerFeature (registerFeature emptyRegistry fXB (some "p2") false)
            fNameB none true).features = some impls ∧
      alookup (getImplementationName fXB) impls = some ⟨fNameB, none⟩) ∧
    (getStats (registerFeature (registerFeature emptyRegistry fXB (some "p2") false)
        fNameB none true)).totalImplementations =
      (getStats (registerFeature emptyRegistry fXB (some "p2")
        false)).totalImplementations) :=
  ⟨rfl, rfl,
    C7_reregistration_overwrites emptyRegistry fXB fNameB (some "p2") none false true
      rfl rfl⟩

theorem applicableStep_eq_some (reg : FeatureRegistry) (sc : SiteConfig) (url : String)
    (m : FeatureMapping) (f : Feature) (h : applicableStep reg sc url m = some f) :
    m.enabled = true ∧ getFeature reg m.featureId m.implementation = some f ∧
      f.isApplicable url (some sc) = Except.ok true := by
  by_cases he : m.enabled
  · simp only [applicableStep, if_pos he] at h
    cases hg : getFeature reg m.featureId m.implementation with
    | none => rw [hg] at h; simp at h
    | some f' =>
      rw [hg] at h
      have h2 : (match f'.isApplicable url (some sc) with
          | Except.ok true => some f'
          | Except.ok false => none
          | Except.error _ => none) = some f := h
      cases ha : f'.isApplicable url (some sc) with
      | error err => rw [ha] at h2; simp at h2
      | ok b =>
        rw [ha] at h2
        cases b with
        | false => simp at h2
        | true =>
          simp only [Option.some.injEq] at h2
          subst h2
          exact ⟨he, rfl, ha⟩
  · simp only [applicableStep, if_neg he] at h
    simp at h

theorem applicableStep_some_of (reg : FeatureRegistry) (sc : SiteConfig) (url : String)
    (m : FeatureMapping) (f : Feature) (he : m.enabled = true)
    (hg : getFeature reg m.featureId m.implementation = some f)
    (ha : f.isApplicable url (some sc) = Except.ok true) :
    applicableStep reg sc url m = some f := by
  simp [applicableStep, he, hg, ha]

theorem pairwise_filterMap_pair {α β : Type} (R : α → α → Prop) (g : α → Option β)
    (l : List α) (h : List.Pairwise R l) :
    List.Pairwise (fun p q => R p.1 q.1)
      (l.filterMap (fun m => (g m).map (fun f => (m, f)))) := by
  induction l with
  | nil => simp
  | cons a t ih =>
    rcases List.pairwise_cons.mp h with ⟨ha, ht⟩
    cases hg : g a with
    | none => simpa [List.filterMap_cons, hg] using ih ht
    | some b =>
      simp only [List.filterMap_cons, hg, Option.map_some']
      refine List.pairwise_cons.mpr ⟨?_, ih ht⟩
      intro p hp
      obtain ⟨m, hm, hpm⟩ := List.mem_filterMap.mp hp
      cases hgm : g m with
      | none => rw [hgm] at hpm; simp at hpm
      | some fm =>
        rw [hgm] at hpm
        simp only [Option.map_some', Option.some.injEq] at hpm
        subst hpm
        exact ha m hm

/-- C2 (amended): for every registry, site configuration and url,
`getApplicableFeatures` never throws and returns exactly the features of the
enabled, resolvable, applicable mappings (an `isApplicable` that throws only
excludes its own feature — every other enabled, resolvable, applicable
mapping still contributes, and no disabled mapping does), ordered by
ascending *effective* priority, where the effective priority (`sortKey`) is
999 when the mapping's priority is missing **or equal to 0** (JS `||` treats
0 as falsy), with ties preserving the original order of
`siteConfig.enabledFeatures`. -/
theorem C2_applicable_features_spec (reg : FeatureRegistry) (sc : SiteConfig)
    (url : String) :
    (∀ f ∈ getApplicableFeatures reg sc url, ∃ m ∈ sc.enabledFeatures,
        m.enabled = true ∧ getFeature reg m.featureId m.implementation = some f ∧
        f.isApplicable url (some sc) = Except.ok true) ∧
    (∀ m ∈ sc.enabledFeatures, m.enabled = true →
        ∀ f, getFeature reg m.featureId m.implementation = some f →
        f.isApplicable url (some sc) = Except.ok true →
        f ∈ getApplicableFeatures reg sc url) ∧
    getApplicableFeatures reg sc url = (applicablePairs reg sc url).map Prod.snd ∧
    List.Pairwise (fun p q => sortKey p.1 ≤ sortKey q.1) (applicablePairs reg sc url) ∧
    (∀ k : Int, List.Sublist
      (((applicablePairs reg sc url).map Prod.fst).filter (fun m => sortKey m == k))
      (sc.enabledFeatures.filter (fun m => sortKey m == k))) := by
  refine ⟨?_, ?_, ?_, ?_, ?_⟩
  · intro f hf
    obtain ⟨m, hm, hstep⟩ := List.mem_filterMap.mp hf
    obtain ⟨he, hg, ha⟩ := applicableStep_eq_some reg sc url m f hstep
    exact ⟨m, (stableSortByKey_perm sortKey sc.enabledFeatures).mem_iff.mp hm,
      he, hg, ha⟩
  · intro m hm he f hg ha
    refine List.mem_filterMap.mpr ⟨m, ?_, applicableStep_some_of reg sc url m f he hg ha⟩
    exact (stableSortByKey_perm sortKey sc.enabledFeatures).mem_iff.mpr hm
  · rw [getApplicableFeatures, applicablePairs, map_snd_filterMap_pair]
  · exact pairwise_filterMap_pair _ _ _ (pairwise_stableSortByKey sortKey _)
  · intro k
    have h1 := List.Sublist.filter (fun m => sortKey m == k)
      (map_fst_filterMap_pair_sublist (applicableStep reg sc url)
        (stableSortByKey sortKey sc.enabledFeatures))
    rwa [filter_stableSortByKey sortKey k sc.enabledFeatures] at h1

/-- C2 counterexample: both mappings are enabled, resolvable and applicable;
the mapping for feature `"a"` has priority `0` and the one for `"b"` has
priority `5`, so the claim (ascending priority with only *missing*
priorities treated as 999) requires `"a"` first — but the code returns
`"b"` first, because `(priority || 999)` coerces the falsy priority `0`
to 999. -/
theorem C2_priority_zero_counterexample :
    (getApplicableFeatures c2Registry c2Site "u").map Feature.id = ["b", "a"] ∧
    c2Site.enabledFeatures.map FeatureMapping.featureId = ["a", "b"] ∧
    c2Site.enabledFeatures.map (fun m => m.priority.getD 999) = [0, 5] ∧
    c2Site.enabledFeatures.map FeatureMapping.enabled = [true, true] :=
  ⟨rfl, rfl, rfl, rfl⟩

theorem C2_applicable_features_spec_witness :
    mapB ∈ c2Site.enabledFeatures ∧ mapB.enabled = true ∧
    getFeature c2Registry mapB.featureId mapB.implementation = some fB ∧
    fB.isApplicable "u" (some c2Site) = Except.ok true ∧
    fB ∈ getApplicableFeatures c2Registry c2Site "u" :=
  ⟨by simp [c2Site, mapB], rfl, rfl, rfl,
    (C2_applicable_features_spec c2Registry c2Site "u").2.1 mapB
      (by simp [c2Site, mapB]) rfl fB rfl rfl⟩

/-- C3: on an initialized manager, when an applicable feature's `execute`
throws, the recorded result for that feature has `success = false` and an
error string containing the thrown message (it is exactly
`"Feature execution failed: " ++ msg`), the owning plugin's aggregate result
has `success = false`, and every applicable feature — in particular every
later one — still has its execution recorded. -/
theorem C3_execute_throw_is_contained (pm : PluginManager) (sc : SiteConfig)
    (url : String) (f : Feature) (msg : String)
    (hinit : pm.isInitialized = true)
    (hf : f ∈ getApplicableFeatures pm.registry sc url)
    (herr : f.execute (featureContext sc url f) = Except.error msg) :
    ∃ rs, executeApplicableFeatures pm sc url = Except.ok rs ∧
      (∃ pr ∈ rs, pr.pluginId = getFeaturePluginId pm f ∧ pr.success = false ∧
        ∃ e ∈ pr.executedFeatures, e.featureId = f.id ∧
          e.implementation = getImplementationName f ∧
          e.result.success = false ∧
          e.result.error = some ("Feature execution failed: " ++ msg)) ∧
      (∀ g ∈ getApplicableFeatures pm.registry sc url, ∃ pr ∈ rs,
        ∃ e ∈ pr.executedFeatures, e.featureId = g.id ∧
          e.implementation = getImplementationName g ∧
          e.result = mkExecResult (g.execute (featureContext sc url g))) := by
  refine ⟨((getApplicableFeatures pm.registry sc url).foldl (stepFeature pm sc url) []).map
    Prod.snd, by simp [executeApplicableFeatures, hinit], ?_, ?_⟩
  · obtain ⟨q, pr', hmem, hpid, hrec, hfail⟩ :=
      foldl_step_records pm sc url (getApplicableFeatures pm.registry sc url) []
        (by simp) f hf
    rw [herr] at hrec hfail
    refine ⟨pr', List.mem_map.mpr ⟨(q, pr'), hmem, rfl⟩, hpid, hfail rfl, ?_⟩
    exact ⟨_, hrec, rfl, rfl, rfl, rfl⟩
  · intro g hg
    obtain ⟨q, pr', hmem, hpid, hrec, hfail⟩ :=
      foldl_step_records pm sc url (getApplicableFeatures pm.registry sc url) []
        (by simp) g hg
    exact ⟨pr', List.mem_map.mpr ⟨(q, pr'), hmem, rfl⟩, _, hrec, rfl, rfl, rfl⟩

theorem C3_execute_throw_is_contained_witness :
    scManager.isInitialized = true ∧
    boomFeature ∈ getApplicableFeatures scManager.registry scSite "u" ∧
    boomFeature.execute (featureContext scSite "u" boomFeature) = Except.error "boom" ∧
    (∃ rs, executeApplicableFeatures scManager scSite "u" = Except.ok rs ∧
      (∃ pr ∈ rs, pr.pluginId = getFeaturePluginId scManager boomFeature ∧
        pr.success = false ∧
        ∃ e ∈ pr.executedFeatures, e.featureId = boomFeature.id ∧
          e.implementation = getImplementationName boomFeature ∧
          e.result.success = false ∧
          e.result.error = some ("Feature execution failed: " ++ "boom")) ∧
      (∀ g ∈ getApplicableFeatures scManager.registry scSite "u", ∃ pr ∈ rs,
        ∃ e ∈ pr.executedFeatures, e.featureId = g.id ∧
          e.implementation = getImplementationName g ∧
          e.result = mkExecResult (g.execute (featureContext scSite "u" g)))) :=
  ⟨rfl, List.Mem.head _, rfl,
    C3_execute_throw_is_contained scManager scSite "u" boomFeature "boom" rfl
      (List.Mem.head _) rfl⟩

/-- C10: the settings put into an executed feature's execution context are
`getFeatureSettings`, fully characterized here: the settings of the *first*
mapping in `siteConfig.enabledFeatures` whose `featureId` equals the
feature's id — no hypothesis is made on that mapping's implementation name,
enabled flag or priority, and `{}` (here `[]`) when it carries no settings —
and `{}` when no mapping matches at all (reachable when the feature was
resolved through an alias); the recorded result is obtained by running
`execute` on exactly that context. -/
theorem C10_settings_from_first_matching_mapping (pm : PluginManager)
    (sc : SiteConfig) (url : String) (g : Feature)
    (hinit : pm.isInitialized = true)
    (hg : g ∈ getApplicableFeatures pm.registry sc url) :
    ((∀ m' ∈ sc.enabledFeatures, m'.featureId ≠ g.id) →
      getFeatureSettings sc g.id = []) ∧
    (∀ l1 m l2, sc.enabledFeatures = l1 ++ m :: l2 →
      (∀ m' ∈ l1, m'.featureId ≠ g.id) → m.featureId = g.id →
      getFeatureSettings sc g.id = m.settings.getD []) ∧
    (∃ rs, executeApplicableFeatures pm sc url = Except.ok rs ∧
      ∃ pr ∈ rs, ∃ e ∈ pr.executedFeatures, e.featureId = g.id ∧
        e.implementation = getImplementationName g ∧
        e.result = mkExecResult (g.execute ⟨sc, getFeatureSettings sc g.id, url⟩)) := by
  refine ⟨?_, ?_, ?_⟩
  · intro hnone
    have hfind : sc.enabledFeatures.find? (fun m' => m'.featureId == g.id) = none := by
      rw [List.find?_eq_none]
      intro x hx
      simp [hnone x hx]
    simp [getFeatureSettings, hfind]
  · intro l1 m l2 hsplit hfirst hm
    have hfind : sc.enabledFeatures.find? (fun m' => m'.featureId == g.id) = some m := by
      rw [hsplit]
      refine find?_append_first _ l1 l2 m ?_ (by simp [hm])
      intro x hx
      simp [hfirst x hx]
    simp [getFeatureSettings, hfind]
  · refine ⟨((getApplicableFeatures pm.registry sc url).foldl
      (stepFeature pm sc url) []).map Prod.snd,
      by simp [executeApplicableFeatures, hinit], ?_⟩
    obtain ⟨q, pr', hmem, hpid, hrec, hfail⟩ :=
      foldl_step_records pm sc url (getApplicableFeatures pm.registry sc url) []
        (by simp) g hg
    exact ⟨pr', List.mem_map.mpr ⟨(q, pr'), hmem, rfl⟩, _, hrec, rfl, rfl, rfl⟩

theorem C10_settings_from_first_matching_mapping_witness :
    c10Manager.isInitialized = true ∧
    calmFeature ∈ getApplicableFeatures c10Manager.registry c10Site "u" ∧
    (∀ m' ∈ c10Site.enabledFeatures, m'.featureId ≠ calmFeature.id) ∧
    (((∀ m' ∈ c10Site.enabledFeatures, m'.featureId ≠ calmFeature.id) →
        getFeatureSettings c10Site calmFeature.id = []) ∧
      (∀ l1 m l2, c10Site.enabledFeatures = l1 ++ m :: l2 →
        (∀ m' ∈ l1, m'.featureId ≠ calmFeature.id) → m.featureId = calmFeature.id →
        getFeatureSettings c10Site calmFeature.id = m.settings.getD []) ∧
      (∃ rs, executeApplicableFeatures c10Manager c10Site "u" = Except.ok rs ∧
        ∃ pr ∈ rs, ∃ e ∈ pr.executedFeatures, e.featureId = calmFeature.id ∧
          e.implementation = getImplementationName calmFeature ∧
          e.result = mkExecResult (calmFeature.execute
            ⟨c10Site, getFeatureSettings c10Site calmFeature.id, "u"⟩))) :=
  ⟨rfl, List.Mem.head _, by decide,
    C10_settings_from_first_matching_mapping c10Manager c10Site "u" calmFeature rfl
      (List.Mem.head _)⟩

/-- C6 counterexample, three concrete failures of the claim as stated, one
per proviso of the amendment. (1) `c6Registry` holds implementations `"a"`
(the recorded default) and `""`; `unregisterFeature("x","a")` picks the
surviving name `""` as the new default, one implementation remains
registered, yet `getFeature("x")` returns nothing because the empty-string
default is falsy under `if (!implName)`. (2) `c6aRegistry` additionally
aliases `"x"` to `"y"`; the removal repairs the default to the surviving
`"b"`, yet `getFeature("x")` resolves the alias and returns nothing.
(3) `c5Registry` records `""` as the default next to `"b"`; calling
`unregisterFeature("x","")` to remove that default does not remove just that
entry — the falsy name makes the call delete the featureId with all its
implementations, and `getFeature("x")` returns nothing. -/
theorem C6_empty_remaining_name_counterexample :
    ((unregisterFeature c6Registry "x" (some "a") none).1 = true ∧
     (alookup "x" (unregisterFeature c6Registry "x" (some "a") none).2.features).map
       (fun l => l.map Prod.fst) = some [""] ∧
     getFeature (unregisterFeature c6Registry "x" (some "a") none).2 "x" none = none) ∧
    ((unregisterFeature c6aRegistry "x" (some "a") none).1 = true ∧
     (alookup "x" (unregisterFeature c6aRegistry "x" (some "a") none).2.features).map
       (fun l => l.map Prod.fst) = some ["b"] ∧
     alookup "x"
       (unregisterFeature c6aRegistry "x" (some "a") none).2.defaultImplementations =
       some "b" ∧
     getFeature (unregisterFeature c6aRegistry "x" (some "a") none).2 "x" none = none) ∧
    (alookup "x" c5Registry.defaultImplementations = some "" ∧
     (alookup "x" c5Registry.features).map (fun l => l.map Prod.fst) = some ["", "b"] ∧
     (unregisterFeature c5Registry "x" (some "") none).1 = true ∧
     alookup "x" (unregisterFeature c5Registry "x" (some "") none).2.features = none ∧
     getFeature (unregisterFeature c5Registry "x" (some "") none).2 "x" none = none) :=
  ⟨⟨rfl, rfl, rfl⟩, ⟨rfl, rfl, rfl, rfl⟩, ⟨rfl, rfl, rfl, rfl, rfl⟩⟩
